import Mathlib

/-!
Verification of the barbell-toolkit core: the position→force signal-processing
pipeline (`src/lib/barbell-physics.ts`), the repetition segmenter, and the
frame-by-frame visual tracker (`src/components/barbell-tracker/TrackingState.tsx`,
final color-matching variant).

JavaScript numbers are modelled as exact rationals (idealized real arithmetic):
all arithmetic in the source is +, -, *, /, comparisons, `Math.floor`,
`Math.min`/`Math.max`, `Math.sqrt` and `Math.exp`.  `Math.sqrt` followed by
squaring (the only way the tracker consumes distances inside `Math.exp`) is the
identity on nonnegative reals and is embedded as such; the two places where a
square root escapes squaring (`speed`) use a rational square-root
approximation, and `Math.exp` (only ever applied to nonpositive arguments) is
embedded by a truncated exponential series that, like the exponential, maps
nonpositive arguments into (0, 1] and 0 to 1.
-/

namespace Barbell

/-! ## Data model (barbell-physics.ts) -/

/-- `TrackingPoint` from barbell-physics.ts: pixel-space sample. -/
structure TrackingPoint where
  x : ℚ
  y : ℚ
  time : ℚ
  deriving DecidableEq

instance : Inhabited TrackingPoint := ⟨⟨0, 0, 0⟩⟩

/-- `{time, value}` pairs fed to `timeBasedMovingAverage`. -/
structure TimeValue where
  time : ℚ
  value : ℚ
  deriving DecidableEq

instance : Inhabited TimeValue := ⟨⟨0, 0⟩⟩

/-- `{time, y}` output of `pixelsToMeters`. -/
structure TimePos where
  time : ℚ
  y : ℚ
  deriving DecidableEq

instance : Inhabited TimePos := ⟨⟨0, 0⟩⟩

/-- `{time, y, velocity}` output of `calculateVelocity`. -/
structure VelPoint where
  time : ℚ
  y : ℚ
  velocity : ℚ
  deriving DecidableEq

instance : Inhabited VelPoint := ⟨⟨0, 0, 0⟩⟩

/-- `{time, y, velocity, acceleration}` output of `calculateAcceleration`. -/
structure AccPoint where
  time : ℚ
  y : ℚ
  velocity : ℚ
  acceleration : ℚ
  deriving DecidableEq

instance : Inhabited AccPoint := ⟨⟨0, 0, 0, 0⟩⟩

/-- `ProcessedFrame` from barbell-physics.ts.  `smoothedForce` is optional in
the TypeScript interface: `calculateForce` leaves it unset (`none`) and
`applyForceRollingAverage` fills it in. -/
structure ProcessedFrame where
  time : ℚ
  y : ℚ
  velocity : ℚ
  acceleration : ℚ
  force : ℚ
  smoothedForce : Option ℚ
  deriving DecidableEq

instance : Inhabited ProcessedFrame := ⟨⟨0, 0, 0, 0, 0, none⟩⟩

/-! ## Configurable constants (barbell-physics.ts lines 12-32) -/

def PEAK_FORCE_WINDOW_MS : ℚ := 50
def POSITION_SMOOTHING_MS : ℚ := 33
def VELOCITY_SMOOTHING_MS : ℚ := 50
def ACCELERATION_SMOOTHING_MS : ℚ := 66
def GRAVITY : ℚ := 9.81

/-! ## Pipeline stages -/

/-- `timeBasedMovingAverage` (barbell-physics.ts lines 73-96): for each point,
average the values of all points whose time lies within ± half the window of
the point's time; if no point qualifies, pass the point's value through. -/
def timeBasedMovingAverage (data : List TimeValue) (windowMs : ℚ) : List ℚ :=
  let windowSeconds := windowMs / 1000
  let halfWindow := windowSeconds / 2
  data.map fun point =>
    let windowStart := point.time - halfWindow
    let windowEnd := point.time + halfWindow
    let inWindow := data.filter fun p => decide (windowStart ≤ p.time ∧ p.time ≤ windowEnd)
    if inWindow.length = 0 then point.value
    else (inWindow.map TimeValue.value).sum / (inWindow.length : ℚ)

/-- `pixelsToMeters` (barbell-physics.ts lines 123-131): divide the vertical
pixel coordinate by the calibration factor.  (No inversion is performed.) -/
def pixelsToMeters (trackingPoints : List TrackingPoint) (pixelsPerMeter : ℚ) :
    List TimePos :=
  trackingPoints.map fun point => ⟨point.time, point.y / pixelsPerMeter⟩

/-- `calculateVelocity` (barbell-physics.ts lines 136-166): central difference
in reversed order (earlier y minus later y, so decreasing screen-Y, i.e. upward
motion, yields positive velocity), forward/backward difference at endpoints;
a difference quotient whose `dt` is not positive is replaced by 0. -/
def calculateVelocity (positions : List TimePos) : List VelPoint :=
  (List.range positions.length).map fun i =>
    let pi := positions.getD i default
    let velocity : ℚ :=
      if i = 0 then
        let pn := positions.getD (i + 1) default
        let dt := pn.time - pi.time
        if 0 < dt then (pi.y - pn.y) / dt else 0
      else if i = positions.length - 1 then
        let pp := positions.getD (i - 1) default
        let dt := pi.time - pp.time
        if 0 < dt then (pp.y - pi.y) / dt else 0
      else
        let pp := positions.getD (i - 1) default
        let pn := positions.getD (i + 1) default
        let dt := pn.time - pp.time
        if 0 < dt then (pp.y - pn.y) / dt else 0
    ⟨pi.time, pi.y, velocity⟩

/-- `calculateAcceleration` (barbell-physics.ts lines 171-197): forward
difference of velocity at the first point (guarded by `length > 1`), backward
at the last, central otherwise; nonpositive `dt` yields 0. -/
def calculateAcceleration (velocityData : List VelPoint) : List AccPoint :=
  (List.range velocityData.length).map fun i =>
    let vi := velocityData.getD i default
    let acceleration : ℚ :=
      if i = 0 ∧ 1 < velocityData.length then
        let vn := velocityData.getD (i + 1) default
        let dt := vn.time - vi.time
        if 0 < dt then (vn.velocity - vi.velocity) / dt else 0
      else if i = velocityData.length - 1 then
        let vp := velocityData.getD (i - 1) default
        let dt := vi.time - vp.time
        if 0 < dt then (vi.velocity - vp.velocity) / dt else 0
      else
        let vp := velocityData.getD (i - 1) default
        let vn := velocityData.getD (i + 1) default
        let dt := vn.time - vp.time
        if 0 < dt then (vn.velocity - vp.velocity) / dt else 0
    ⟨vi.time, vi.y, vi.velocity, acceleration⟩

/-- `calculateForce` (barbell-physics.ts lines 203-213):
`force = mass * (acceleration + GRAVITY)`. -/
def calculateForce (accelerationData : List AccPoint) (mass : ℚ) :
    List ProcessedFrame :=
  accelerationData.map fun point =>
    ⟨point.time, point.y, point.velocity, point.acceleration,
      mass * (point.acceleration + GRAVITY), none⟩

/-- `applyForceRollingAverage` (barbell-physics.ts lines 221-248): time-windowed
rolling average of `force`, stored in `smoothedForce`. -/
def applyForceRollingAverage (forceData : List ProcessedFrame) (windowMs : ℚ) :
    List ProcessedFrame :=
  let windowSeconds := windowMs / 1000
  let halfWindow := windowSeconds / 2
  forceData.map fun point =>
    let windowStart := point.time - halfWindow
    let windowEnd := point.time + halfWindow
    let inWindow := forceData.filter fun p =>
      decide (windowStart ≤ p.time ∧ p.time ≤ windowEnd)
    { point with
      smoothedForce :=
        if inWindow.length = 0 then some point.force
        else some ((inWindow.map ProcessedFrame.force).sum / (inWindow.length : ℚ)) }

/-- Step 1 of `processTrackingData` (barbell-physics.ts lines 299-306): smooth
the metric Y coordinates with the time-based window, keeping the times. -/
def smoothPositionStage (metersData : List TimePos) : List TimePos :=
  let positionForSmoothing := metersData.map fun p => TimeValue.mk p.time p.y
  let smoothedY := timeBasedMovingAverage positionForSmoothing POSITION_SMOOTHING_MS
  (List.range metersData.length).map fun i =>
    TimePos.mk (metersData.getD i default).time (smoothedY.getD i 0)

/-- Step 3 of `processTrackingData` (barbell-physics.ts lines 311-318): smooth
the velocities with the time-based window, keeping times and positions. -/
def smoothVelocityStage (velocityData : List VelPoint) : List VelPoint :=
  let velocityForSmoothing := velocityData.map fun p => TimeValue.mk p.time p.velocity
  let smoothedVelocity := timeBasedMovingAverage velocityForSmoothing VELOCITY_SMOOTHING_MS
  (List.range velocityData.length).map fun i =>
    let p := velocityData.getD i default
    VelPoint.mk p.time p.y (smoothedVelocity.getD i 0)

/-- Step 5 of `processTrackingData` (barbell-physics.ts lines 323-330): smooth
the accelerations with the time-based window, keeping the other fields. -/
def smoothAccelerationStage (accelerationData : List AccPoint) : List AccPoint :=
  let accelerationForSmoothing := accelerationData.map fun p =>
    TimeValue.mk p.time p.acceleration
  let smoothedAcceleration :=
    timeBasedMovingAverage accelerationForSmoothing ACCELERATION_SMOOTHING_MS
  (List.range accelerationData.length).map fun i =>
    let p := accelerationData.getD i default
    AccPoint.mk p.time p.y p.velocity (smoothedAcceleration.getD i 0)

/-- `processTrackingData` (barbell-physics.ts lines 286-339): the full pipeline.
Inputs shorter than 3 points yield the empty list; otherwise convert to meters,
smooth position (step 1), differentiate to velocity (step 2), smooth (step 3),
differentiate to acceleration (step 4), smooth (step 5), compute force
(step 6), and attach the rolling-average `smoothedForce` (step 7).  (The
deprecated `_smoothingWindow` parameter is unused in the source and omitted.) -/
def processTrackingData (trackingPoints : List TrackingPoint)
    (pixelsPerMeter : ℚ) (mass : ℚ) : List ProcessedFrame :=
  if trackingPoints.length < 3 then [] else
  applyForceRollingAverage
    (calculateForce
      (smoothAccelerationStage
        (calculateAcceleration
          (smoothVelocityStage
            (calculateVelocity
              (smoothPositionStage
                (pixelsToMeters trackingPoints pixelsPerMeter))))))
      mass)
    PEAK_FORCE_WINDOW_MS

/-! ## Index and length infrastructure -/


lemma rangeMap_getD {α : Type} (f : ℕ → α) (n i : ℕ) (d : α) (h : i < n) :
    ((List.range n).map f).getD i d = f i := by
  simp [List.getD_eq_getElem?_getD, List.getElem?_map, List.getElem?_range, h]

lemma getD_map_of_lt {α β : Type} (f : α → β) (l : List α) (i : ℕ) (d : α) (d2 : β)
    (h : i < l.length) : (l.map f).getD i d2 = f (l.getD i d) := by
  simp [List.getD_eq_getElem?_getD, List.getElem?_map, List.getElem?_eq_getElem, h]

lemma timeBasedMovingAverage_length (data : List TimeValue) (w : ℚ) :
    (timeBasedMovingAverage data w).length = data.length := by
  simp [timeBasedMovingAverage]

lemma pixelsToMeters_length (tps : List TrackingPoint) (ppm : ℚ) :
    (pixelsToMeters tps ppm).length = tps.length := by
  simp [pixelsToMeters]

lemma calculateVelocity_length (ps : List TimePos) :
    (calculateVelocity ps).length = ps.length := by
  simp [calculateVelocity]

lemma calculateAcceleration_length (vd : List VelPoint) :
    (calculateAcceleration vd).length = vd.length := by
  simp [calculateAcceleration]

lemma calculateForce_length (ad : List AccPoint) (m : ℚ) :
    (calculateForce ad m).length = ad.length := by
  simp [calculateForce]

lemma applyForceRollingAverage_length (fd : List ProcessedFrame) (w : ℚ) :
    (applyForceRollingAverage fd w).length = fd.length := by
  simp [applyForceRollingAverage]

lemma smoothPositionStage_length (md : List TimePos) :
    (smoothPositionStage md).length = md.length := by
  simp [smoothPositionStage]

lemma smoothVelocityStage_length (vd : List VelPoint) :
    (smoothVelocityStage vd).length = vd.length := by
  simp [smoothVelocityStage]

lemma smoothAccelerationStage_length (ad : List AccPoint) :
    (smoothAccelerationStage ad).length = ad.length := by
  simp [smoothAccelerationStage]

lemma processTrackingData_length (tps : List TrackingPoint) (ppm mass : ℚ) :
    (processTrackingData tps ppm mass).length = if tps.length < 3 then 0 else tps.length := by
  by_cases h : tps.length < 3 <;>
    simp [processTrackingData, h, applyForceRollingAverage_length, calculateForce_length,
      calculateAcceleration_length, calculateVelocity_length, pixelsToMeters_length,
      smoothPositionStage_length, smoothVelocityStage_length, smoothAccelerationStage_length]



lemma pixelsToMeters_getD (tps : List TrackingPoint) (ppm : ℚ) (i : ℕ)
    (h : i < tps.length) :
    (pixelsToMeters tps ppm).getD i default =
      ⟨(tps.getD i default).time, (tps.getD i default).y / ppm⟩ := by
  simp only [pixelsToMeters]
  rw [getD_map_of_lt _ tps i default default h]

lemma smoothPositionStage_getD (md : List TimePos) (i : ℕ) (h : i < md.length) :
    (smoothPositionStage md).getD i default =
      TimePos.mk (md.getD i default).time
        ((timeBasedMovingAverage (md.map fun p => TimeValue.mk p.time p.y)
          POSITION_SMOOTHING_MS).getD i 0) := by
  simp only [smoothPositionStage]
  exact rangeMap_getD _ _ _ _ h

lemma calculateVelocity_getD (ps : List TimePos) (i : ℕ) (h : i < ps.length) :
    ∃ v, (calculateVelocity ps).getD i default =
      ⟨(ps.getD i default).time, (ps.getD i default).y, v⟩ :=
  ⟨_, by simp only [calculateVelocity]; exact rangeMap_getD _ _ _ _ h⟩

lemma smoothVelocityStage_getD (vd : List VelPoint) (i : ℕ) (h : i < vd.length) :
    ∃ v, (smoothVelocityStage vd).getD i default =
      ⟨(vd.getD i default).time, (vd.getD i default).y, v⟩ :=
  ⟨_, by simp only [smoothVelocityStage]; exact rangeMap_getD _ _ _ _ h⟩

lemma calculateAcceleration_getD (vd : List VelPoint) (i : ℕ) (h : i < vd.length) :
    ∃ a, (calculateAcceleration vd).getD i default =
      ⟨(vd.getD i default).time, (vd.getD i default).y, (vd.getD i default).velocity, a⟩ :=
  ⟨_, by simp only [calculateAcceleration]; exact rangeMap_getD _ _ _ _ h⟩

lemma smoothAccelerationStage_getD (ad : List AccPoint) (i : ℕ) (h : i < ad.length) :
    ∃ a, (smoothAccelerationStage ad).getD i default =
      ⟨(ad.getD i default).time, (ad.getD i default).y, (ad.getD i default).velocity, a⟩ :=
  ⟨_, by simp only [smoothAccelerationStage]; exact rangeMap_getD _ _ _ _ h⟩

lemma calculateForce_getD (ad : List AccPoint) (m : ℚ) (i : ℕ) (h : i < ad.length) :
    (calculateForce ad m).getD i default =
      ⟨(ad.getD i default).time, (ad.getD i default).y, (ad.getD i default).velocity,
        (ad.getD i default).acceleration,
        m * ((ad.getD i default).acceleration + GRAVITY), none⟩ := by
  simp only [calculateForce]
  rw [getD_map_of_lt _ ad i default default h]

lemma applyForceRollingAverage_getD (fd : List ProcessedFrame) (w : ℚ) (i : ℕ)
    (h : i < fd.length) :
    ∃ sf, (applyForceRollingAverage fd w).getD i default =
      { fd.getD i default with smoothedForce := sf } :=
  ⟨_, by simp only [applyForceRollingAverage]; exact getD_map_of_lt _ fd i default default h⟩

/-- Shape of the `i`-th output frame of the pipeline for a long-enough input:
its `time` is the `i`-th input time and its `y` is the `i`-th smoothed metric
position. -/
lemma processTrackingData_getD (tps : List TrackingPoint) (ppm mass : ℚ) (i : ℕ)
    (h3 : ¬ tps.length < 3) (hi : i < tps.length) :
    ∃ v a f sf, (processTrackingData tps ppm mass).getD i default =
      { time := (tps.getD i default).time,
        y := (timeBasedMovingAverage
            ((pixelsToMeters tps ppm).map fun p => TimeValue.mk p.time p.y)
            POSITION_SMOOTHING_MS).getD i 0,
        velocity := v, acceleration := a, force := f, smoothedForce := sf } := by
  simp only [processTrackingData, if_neg h3]
  set MD := pixelsToMeters tps ppm with hMD
  set SPD := smoothPositionStage MD with hSPD
  set VD := calculateVelocity SPD with hVD
  set SVD := smoothVelocityStage VD with hSVD
  set AD := calculateAcceleration SVD with hAD
  set SAD := smoothAccelerationStage AD with hSAD
  set FD := calculateForce SAD mass with hFD
  have l0 : MD.length = tps.length := pixelsToMeters_length tps ppm
  have l1 : SPD.length = MD.length := smoothPositionStage_length MD
  have l2 : VD.length = SPD.length := calculateVelocity_length SPD
  have l3 : SVD.length = VD.length := smoothVelocityStage_length VD
  have l4 : AD.length = SVD.length := calculateAcceleration_length SVD
  have l5 : SAD.length = AD.length := smoothAccelerationStage_length AD
  have l6 : FD.length = SAD.length := calculateForce_length SAD mass
  obtain ⟨sf, hsf⟩ := applyForceRollingAverage_getD FD PEAK_FORCE_WINDOW_MS i (by omega)
  obtain ⟨a2, ha2⟩ := smoothAccelerationStage_getD AD i (by omega)
  obtain ⟨a1, ha1⟩ := calculateAcceleration_getD SVD i (by omega)
  obtain ⟨v2, hv2⟩ := smoothVelocityStage_getD VD i (by omega)
  obtain ⟨v1, hv1⟩ := calculateVelocity_getD SPD i (by omega)
  have hFDg : FD.getD i default =
      ⟨(SAD.getD i default).time, (SAD.getD i default).y, (SAD.getD i default).velocity,
        (SAD.getD i default).acceleration,
        mass * ((SAD.getD i default).acceleration + GRAVITY), none⟩ := by
    rw [hFD]; exact calculateForce_getD SAD mass i (by omega)
  have hSPDg : SPD.getD i default =
      TimePos.mk (MD.getD i default).time
        ((timeBasedMovingAverage (MD.map fun p => TimeValue.mk p.time p.y)
          POSITION_SMOOTHING_MS).getD i 0) := by
    rw [hSPD]; exact smoothPositionStage_getD MD i (by omega)
  rw [hFDg, ha2, ha1, hv2, hv1, hSPDg, hMD, pixelsToMeters_getD tps ppm i hi] at hsf
  exact ⟨_, _, _, sf, hsf⟩



/-- Uniform scaling of a pixel-space sample (both coordinates) by a factor. -/
def scalePoint (k : ℚ) (p : TrackingPoint) : TrackingPoint := ⟨k * p.x, k * p.y, p.time⟩

/-- Claim C1: for every trajectory with at least 3 points, `processTrackingData`
returns exactly one `ProcessedFrame` per input point (same length), the `i`-th
output frame carrying the `i`-th input point's timestamp in original order;
for every trajectory with fewer than 3 points it returns the empty sequence. -/
theorem c1_length_and_time_alignment (tps : List TrackingPoint) (ppm mass : ℚ) :
    (3 ≤ tps.length →
      (processTrackingData tps ppm mass).length = tps.length ∧
      ∀ i, i < tps.length →
        ((processTrackingData tps ppm mass).getD i default).time =
          (tps.getD i default).time) ∧
    (tps.length < 3 → processTrackingData tps ppm mass = []) := by
  constructor
  · intro h3
    have h3' : ¬ tps.length < 3 := by omega
    refine ⟨?_, ?_⟩
    · rw [processTrackingData_length]; simp [h3']
    · intro i hi
      obtain ⟨v, a, f, sf, hsf⟩ := processTrackingData_getD tps ppm mass i h3' hi
      rw [hsf]
  · intro h3
    simp [processTrackingData, h3]

def exC1 : List TrackingPoint := [⟨0, 100, 0⟩, ⟨0, 90, 1/30⟩, ⟨0, 80, 2/30⟩]

/-- Witness for C1 at a concrete 3-point trajectory. -/
theorem c1_length_and_time_alignment_witness :
    3 ≤ exC1.length ∧ (processTrackingData exC1 1000 100).length = exC1.length ∧
      ((processTrackingData exC1 1000 100).getD 1 default).time =
        (exC1.getD 1 default).time :=
  ⟨by decide, ((c1_length_and_time_alignment exC1 1000 100).1 (by decide)).1,
    ((c1_length_and_time_alignment exC1 1000 100).1 (by decide)).2 1 (by decide)⟩

/-- Claim C4: scaling all pixel positions and `pixelsPerMeter` by the same
positive factor `k` leaves the whole pipeline output — in particular velocity,
acceleration, force and smoothedForce of every output frame — unchanged. -/
theorem c4_calibration_linearity (tps : List TrackingPoint) (ppm mass k : ℚ)
    (hk : 0 < k) :
    processTrackingData (tps.map (scalePoint k)) (k * ppm) mass =
      processTrackingData tps ppm mass := by
  have hm : pixelsToMeters (tps.map (scalePoint k)) (k * ppm) = pixelsToMeters tps ppm := by
    simp only [pixelsToMeters, List.map_map]
    refine List.map_congr_left fun p _ => ?_
    simp only [Function.comp_apply, scalePoint]
    rw [mul_div_mul_left _ _ (ne_of_gt hk)]
  simp only [processTrackingData, List.length_map, hm]

def exC4 : List TrackingPoint := [⟨0, 30, 0⟩, ⟨0, 20, 1/30⟩, ⟨0, 10, 2/30⟩]

/-- Witness for C4 at a concrete trajectory and factor `k = 2`. -/
theorem c4_calibration_linearity_witness :
    (0 : ℚ) < 2 ∧
      processTrackingData (exC4.map (scalePoint 2)) (2 * 500) 80 =
        processTrackingData exC4 500 80 :=
  ⟨by norm_num, c4_calibration_linearity exC4 500 80 2 (by norm_num)⟩

def exC6 : List TrackingPoint := [⟨0, 10, 0⟩, ⟨0, 20, 1⟩, ⟨0, 30, 2⟩]

/-- Claim C6 counterexample: with the non-positive calibration factor
`pixelsPerMeter = -1` and a 3-point trajectory, `processTrackingData` returns
3 frames, not the empty result the claim demands. -/
theorem c6_counterexample :
    ((-1 : ℚ) ≤ 0) ∧ processTrackingData exC6 (-1) 100 ≠ [] := by
  have hl : (processTrackingData exC6 (-1) 100).length = 3 := by
    rw [processTrackingData_length]; norm_num [exC6]
  exact ⟨by norm_num, fun h => by rw [h] at hl; simp at hl⟩

/-- Claim C6 (amended): the pipeline returns the empty sequence exactly when
the trajectory has fewer than 3 points; non-positive `pixelsPerMeter` or
`mass` are not validated and do not cause an empty result. -/
theorem c6_amended_empty_iff_short (tps : List TrackingPoint) (ppm mass : ℚ) :
    processTrackingData tps ppm mass = [] ↔ tps.length < 3 := by
  constructor
  · intro h
    have hl := processTrackingData_length tps ppm mass
    rw [h] at hl
    by_contra h3
    rw [if_neg h3] at hl
    simp at hl
    omega
  · intro h
    simp [processTrackingData, h]



lemma getD_eq_get {α : Type} (l : List α) (i : ℕ) (d : α) (h : i < l.length) :
    l.getD i d = l.get ⟨i, h⟩ := by
  simp [List.getD_eq_getElem?_getD, List.getElem?_eq_getElem, h]

lemma filter_eq_singleton_of_index {α : Type} (l : List α) (q : α → Bool) (i : ℕ) (d : α)
    (hi : i < l.length) (hq : q (l.getD i d) = true)
    (huniq : ∀ j, j < l.length → j ≠ i → q (l.getD j d) = false) :
    l.filter q = [l.getD i d] := by
  induction l generalizing i with
  | nil => simp at hi
  | cons a t ih =>
    cases i with
    | zero =>
      rw [List.getD_cons_zero] at hq ⊢
      have ht : t.filter q = [] := by
        rw [List.filter_eq_nil_iff]
        intro x hx
        obtain ⟨⟨j, hj⟩, hget⟩ := List.mem_iff_get.mp hx
        have := huniq (j + 1) (by simp; omega) (by omega)
        rw [List.getD_cons_succ, getD_eq_get t j d hj, hget] at this
        simp [this]
      simp [List.filter_cons, hq, ht]
    | succ j =>
      have ha : q a = false := by
        have := huniq 0 (by simp) (by omega)
        rwa [List.getD_cons_zero] at this
      have hj : j < t.length := by simp at hi; omega
      rw [List.getD_cons_succ]
      rw [List.filter_cons, ha]
      simp only [Bool.false_eq_true, if_false]
      exact ih j hj (by rwa [List.getD_cons_succ] at hq)
        (fun j' hj' hne => by
          have := huniq (j' + 1) (by simp; omega) (by omega)
          rwa [List.getD_cons_succ] at this)



/-- If every other sample is farther than half the window from sample `i`,
the time-based moving average passes sample `i`'s value through unchanged. -/
lemma timeBasedMovingAverage_getD_separated (data : List TimeValue) (w : ℚ)
    (hw : 0 ≤ w) (i : ℕ) (hi : i < data.length)
    (hsep : ∀ j, j < data.length → j ≠ i →
      ¬ |(data.getD j default).time - (data.getD i default).time| ≤ w / 1000 / 2) :
    (timeBasedMovingAverage data w).getD i 0 = (data.getD i default).value := by
  simp only [timeBasedMovingAverage]
  rw [getD_map_of_lt _ data i default 0 hi]
  have hq : (fun p => decide
      ((data.getD i default).time - w / 1000 / 2 ≤ p.time ∧
        p.time ≤ (data.getD i default).time + w / 1000 / 2)) (data.getD i default) = true := by
    simp only [decide_eq_true_eq]
    constructor <;> linarith [div_nonneg (div_nonneg hw (by norm_num : (0:ℚ) ≤ 1000)) (by norm_num : (0:ℚ) ≤ 2)]
  have huniq : ∀ j, j < data.length → j ≠ i →
      (fun p => decide
        ((data.getD i default).time - w / 1000 / 2 ≤ p.time ∧
          p.time ≤ (data.getD i default).time + w / 1000 / 2)) (data.getD j default) = false := by
    intro j hj hne
    simp only [decide_eq_false_iff_not, not_and, not_le]
    intro hle
    have habs := hsep j hj hne
    rw [abs_le, not_and_or, not_le, not_le] at habs
    rcases habs with h1 | h2
    · linarith
    · linarith
  have hfil := filter_eq_singleton_of_index data
    (fun p => decide
      ((data.getD i default).time - w / 1000 / 2 ≤ p.time ∧
        p.time ≤ (data.getD i default).time + w / 1000 / 2)) i default hi hq huniq
  rw [hfil]
  simp



/-- Claim C2 (amended): the unit-conversion step of `processTrackingData` maps
the vertical pixel coordinate to `y / pixelsPerMeter` with NO inversion
relative to the maximum Y of the trajectory; for trajectories whose samples
are spread further apart than the position-smoothing half-window the metric
position of the `i`-th output frame is exactly `y i / pixelsPerMeter`.
(The upward-positive sign convention is instead realized in
`calculateVelocity`, which negates the difference quotient.) -/
theorem c2_amended_no_inversion (tps : List TrackingPoint) (ppm mass : ℚ)
    (h3 : 3 ≤ tps.length)
    (hsep : List.Pairwise
      (fun p q => POSITION_SMOOTHING_MS / 1000 / 2 < |p.time - q.time|) tps)
    (i : ℕ) (hi : i < tps.length) :
    ((processTrackingData tps ppm mass).getD i default).y =
      (tps.getD i default).y / ppm := by
  have h3' : ¬ tps.length < 3 := by omega
  obtain ⟨v, a, f, sf, hout⟩ := processTrackingData_getD tps ppm mass i h3' hi
  rw [hout]
  have hlen : ((pixelsToMeters tps ppm).map fun p => TimeValue.mk p.time p.y).length
      = tps.length := by
    simp [pixelsToMeters_length]
  have hdata : ∀ j, j < tps.length →
      ((pixelsToMeters tps ppm).map fun p => TimeValue.mk p.time p.y).getD j default =
        TimeValue.mk (tps.getD j default).time ((tps.getD j default).y / ppm) := by
    intro j hj
    rw [getD_map_of_lt _ _ j default default (by rw [pixelsToMeters_length]; exact hj),
      pixelsToMeters_getD tps ppm j hj]
  have hP := List.pairwise_iff_get.mp hsep
  have hsepidx : ∀ j,
      j < ((pixelsToMeters tps ppm).map fun p => TimeValue.mk p.time p.y).length → j ≠ i →
      ¬ |((((pixelsToMeters tps ppm).map fun p => TimeValue.mk p.time p.y).getD j default)).time -
          ((((pixelsToMeters tps ppm).map fun p => TimeValue.mk p.time p.y).getD i default)).time| ≤
        POSITION_SMOOTHING_MS / 1000 / 2 := by
    intro j hj hne
    rw [hlen] at hj
    rw [hdata j hj, hdata i hi]
    simp only
    rcases Nat.lt_or_ge j i with hji | hij
    · have hlt := hP ⟨j, by omega⟩ ⟨i, hi⟩ hji
      rw [← getD_eq_get tps j default (by omega), ← getD_eq_get tps i default hi] at hlt
      intro hle
      exact absurd hle (not_le.mpr hlt)
    · have hij' : i < j := by omega
      have hlt := hP ⟨i, hi⟩ ⟨j, by omega⟩ hij'
      rw [← getD_eq_get tps i default hi, ← getD_eq_get tps j default (by omega)] at hlt
      rw [abs_sub_comm] at hlt
      intro hle
      exact absurd hle (not_le.mpr hlt)
  rw [timeBasedMovingAverage_getD_separated _ POSITION_SMOOTHING_MS
    (by norm_num [POSITION_SMOOTHING_MS]) i (by omega) hsepidx]
  rw [hdata i hi]

section
attribute [local semireducible] Rat.mul Rat.inv Rat.add Rat.sub Rat.ofScientific

def exC2 : List TrackingPoint := [⟨0, 0, 0⟩, ⟨0, 0, 10⟩, ⟨0, 2, 20⟩]

/-- Claim C2 counterexample: for the trajectory with pixel Y values 0, 0, 2
(times 0 s, 10 s, 20 s, far outside every smoothing window) and
`pixelsPerMeter = 1`, the maximum Y is 2 and the claim predicts metric
position `(2 - 0) / 1 = 2` for frame 0, but `processTrackingData` outputs 0:
the vertical coordinate is not inverted relative to the trajectory maximum. -/
theorem c2_counterexample :
    ((processTrackingData exC2 1 1).getD 0 default).y = 0 ∧
      ((2 : ℚ) - 0) / 1 = 2 ∧ (0 : ℚ) ≠ 2 := by
  refine ⟨by decide, by norm_num, by norm_num⟩

def exC2w : List TrackingPoint := [⟨0, 5, 0⟩, ⟨0, 6, 1⟩, ⟨0, 7, 2⟩]

/-- Witness for the amended C2 at a concrete separated trajectory. -/
theorem c2_amended_no_inversion_witness :
    3 ≤ exC2w.length ∧
      List.Pairwise
        (fun p q => POSITION_SMOOTHING_MS / 1000 / 2 < |p.time - q.time|) exC2w ∧
      ((processTrackingData exC2w 2 1).getD 0 default).y = (exC2w.getD 0 default).y / 2 :=
  ⟨by decide, by decide,
    c2_amended_no_inversion exC2w 2 1 (by decide) (by decide) 0 (by decide)⟩

end



lemma getD_mem {α : Type} (l : List α) (i : ℕ) (d : α) (h : i < l.length) :
    l.getD i d ∈ l := by
  rw [getD_eq_get l i d h]; exact List.get_mem l i h

/-- A time-based moving average of a constant signal is that constant. -/
lemma timeBasedMovingAverage_const (data : List TimeValue) (c w : ℚ)
    (h : ∀ p ∈ data, p.value = c) :
    ∀ x ∈ timeBasedMovingAverage data w, x = c := by
  intro x hx
  simp only [timeBasedMovingAverage, List.mem_map] at hx
  obtain ⟨p, hp, rfl⟩ := hx
  split
  · exact h p hp
  · rename_i hne
    have hsub : ∀ q ∈ data.filter fun q =>
        decide (p.time - w / 1000 / 2 ≤ q.time ∧ q.time ≤ p.time + w / 1000 / 2), q.value = c :=
      fun q hq => h q (List.mem_of_mem_filter hq)
    have hrep : (data.filter fun q =>
        decide (p.time - w / 1000 / 2 ≤ q.time ∧ q.time ≤ p.time + w / 1000 / 2)).map
          TimeValue.value =
        List.replicate (data.filter fun q =>
          decide (p.time - w / 1000 / 2 ≤ q.time ∧ q.time ≤ p.time + w / 1000 / 2)).length c := by
      rw [List.eq_replicate_iff]
      refine ⟨by simp, ?_⟩
      intro b hb
      simp only [List.mem_map] at hb
      obtain ⟨r, hr, rfl⟩ := hb
      exact hsub r hr
    rw [hrep, List.sum_replicate, nsmul_eq_mul]
    rw [mul_comm, mul_div_assoc, div_self (by exact_mod_cast hne), mul_one]

lemma smoothPositionStage_const (md : List TimePos) (c : ℚ)
    (h : ∀ p ∈ md, p.y = c) :
    ∀ p ∈ smoothPositionStage md, p.y = c := by
  intro p hp
  simp only [smoothPositionStage, List.mem_map, List.mem_range] at hp
  obtain ⟨i, hi, rfl⟩ := hp
  dsimp only
  have hlen : (timeBasedMovingAverage (md.map fun p => TimeValue.mk p.time p.y)
      POSITION_SMOOTHING_MS).length = md.length := by
    simp [timeBasedMovingAverage_length]
  refine timeBasedMovingAverage_const _ c _ ?_ _ (getD_mem _ i 0 (by omega))
  intro q hq
  simp only [List.mem_map] at hq
  obtain ⟨r, hr, rfl⟩ := hq
  exact h r hr

lemma calculateVelocity_const_y (ps : List TimePos) (c : ℚ) (h2 : 2 ≤ ps.length)
    (hc : ∀ p ∈ ps, p.y = c) : ∀ v ∈ calculateVelocity ps, v.velocity = 0 := by
  intro v hv
  simp only [calculateVelocity, List.mem_map, List.mem_range] at hv
  obtain ⟨i, hi, rfl⟩ := hv
  dsimp only
  have hgy : ∀ j, j < ps.length → (ps.getD j default).y = c :=
    fun j hj => hc _ (getD_mem ps j default hj)
  by_cases h0 : i = 0
  · subst h0
    rw [if_pos rfl, hgy 0 (by omega), hgy 1 (by omega)]
    simp
  · by_cases hl : i = ps.length - 1
    · rw [if_neg h0, if_pos hl, hgy i hi, hgy (i - 1) (by omega)]
      simp
    · rw [if_neg h0, if_neg hl, hgy (i - 1) (by omega), hgy (i + 1) (by omega)]
      simp

lemma smoothVelocityStage_const (vd : List VelPoint) (cv : ℚ)
    (h : ∀ p ∈ vd, p.velocity = cv) :
    ∀ p ∈ smoothVelocityStage vd, p.velocity = cv := by
  intro p hp
  simp only [smoothVelocityStage, List.mem_map, List.mem_range] at hp
  obtain ⟨i, hi, rfl⟩ := hp
  dsimp only
  have hlen : (timeBasedMovingAverage (vd.map fun p => TimeValue.mk p.time p.velocity)
      VELOCITY_SMOOTHING_MS).length = vd.length := by
    simp [timeBasedMovingAverage_length]
  refine timeBasedMovingAverage_const _ cv _ ?_ _ (getD_mem _ i 0 (by omega))
  intro q hq
  simp only [List.mem_map] at hq
  obtain ⟨r, hr, rfl⟩ := hq
  exact h r hr

lemma calculateAcceleration_const_v (vd : List VelPoint) (cv : ℚ) (h2 : 2 ≤ vd.length)
    (hc : ∀ p ∈ vd, p.velocity = cv) :
    ∀ a ∈ calculateAcceleration vd, a.acceleration = 0 := by
  intro a ha
  simp only [calculateAcceleration, List.mem_map, List.mem_range] at ha
  obtain ⟨i, hi, rfl⟩ := ha
  dsimp only
  have hgv : ∀ j, j < vd.length → (vd.getD j default).velocity = cv :=
    fun j hj => hc _ (getD_mem vd j default hj)
  by_cases h0 : i = 0 ∧ 1 < vd.length
  · rw [if_pos h0, hgv i hi, hgv (i + 1) (by omega)]
    simp
  · by_cases hl : i = vd.length - 1
    · rw [if_neg h0, if_pos hl, hgv i hi, hgv (i - 1) (by omega)]
      simp
    · rw [if_neg h0, if_neg hl, hgv (i - 1) (by omega), hgv (i + 1) (by omega)]
      simp

lemma smoothAccelerationStage_const (ad : List AccPoint) (ca : ℚ)
    (h : ∀ p ∈ ad, p.acceleration = ca) :
    ∀ p ∈ smoothAccelerationStage ad, p.acceleration = ca := by
  intro p hp
  simp only [smoothAccelerationStage, List.mem_map, List.mem_range] at hp
  obtain ⟨i, hi, rfl⟩ := hp
  dsimp only
  have hlen : (timeBasedMovingAverage (ad.map fun p => TimeValue.mk p.time p.acceleration)
      ACCELERATION_SMOOTHING_MS).length = ad.length := by
    simp [timeBasedMovingAverage_length]
  refine timeBasedMovingAverage_const _ ca _ ?_ _ (getD_mem _ i 0 (by omega))
  intro q hq
  simp only [List.mem_map] at hq
  obtain ⟨r, hr, rfl⟩ := hq
  exact h r hr

lemma calculateForce_const (ad : List AccPoint) (mass : ℚ)
    (h : ∀ a ∈ ad, a.acceleration = 0) :
    ∀ fr ∈ calculateForce ad mass, fr.force = mass * GRAVITY := by
  intro fr hfr
  simp only [calculateForce, List.mem_map] at hfr
  obtain ⟨p, hp, rfl⟩ := hfr
  dsimp only
  rw [h p hp, zero_add]

lemma applyForceRollingAverage_const (fd : List ProcessedFrame) (K w : ℚ)
    (h : ∀ p ∈ fd, p.force = K) :
    ∀ q ∈ applyForceRollingAverage fd w, q.force = K ∧ q.smoothedForce = some K := by
  intro q hq
  simp only [applyForceRollingAverage, List.mem_map] at hq
  obtain ⟨p, hp, rfl⟩ := hq
  dsimp only
  refine ⟨h p hp, ?_⟩
  split
  · rw [h p hp]
  · rename_i hne
    congr 1
    have hsub : ∀ r ∈ fd.filter fun r =>
        decide (p.time - w / 1000 / 2 ≤ r.time ∧ r.time ≤ p.time + w / 1000 / 2), r.force = K :=
      fun r hr => h r (List.mem_of_mem_filter hr)
    have hrep : (fd.filter fun r =>
        decide (p.time - w / 1000 / 2 ≤ r.time ∧ r.time ≤ p.time + w / 1000 / 2)).map
          ProcessedFrame.force =
        List.replicate (fd.filter fun r =>
          decide (p.time - w / 1000 / 2 ≤ r.time ∧ r.time ≤ p.time + w / 1000 / 2)).length K := by
      rw [List.eq_replicate_iff]
      refine ⟨by simp, ?_⟩
      intro b hb
      simp only [List.mem_map] at hb
      obtain ⟨r, hr, rfl⟩ := hb
      exact hsub r hr
    rw [hrep, List.sum_replicate, nsmul_eq_mul]
    rw [mul_comm, mul_div_assoc, div_self (by exact_mod_cast hne), mul_one]



/-- Claim C3: for every trajectory of at least 3 points with strictly
increasing timestamps and constant position (identical x and y at every
sample), every output frame of `processTrackingData` has `force` equal to
`mass * GRAVITY` (GRAVITY = 9.81) and `smoothedForce` equal to
`mass * GRAVITY` — here exactly, so in particular within smoothing-window
boundary effects. -/
theorem c3_gravity_only_baseline (tps : List TrackingPoint) (ppm mass x0 y0 : ℚ)
    (h3 : 3 ≤ tps.length)
    (_hmono : List.Pairwise (fun p q => p.time < q.time) tps)
    (hconst : ∀ p ∈ tps, p.x = x0 ∧ p.y = y0) :
    ∀ fr ∈ processTrackingData tps ppm mass,
      fr.force = mass * GRAVITY ∧ fr.smoothedForce = some (mass * GRAVITY) := by
  intro fr hfr
  have h3' : ¬ tps.length < 3 := by omega
  rw [processTrackingData, if_neg h3'] at hfr
  have hMD : ∀ p ∈ pixelsToMeters tps ppm, p.y = y0 / ppm := by
    intro p hp
    simp only [pixelsToMeters, List.mem_map] at hp
    obtain ⟨q, hq, rfl⟩ := hp
    rw [(hconst q hq).2]
  have hSPD := smoothPositionStage_const (pixelsToMeters tps ppm) (y0 / ppm) hMD
  have hVD := calculateVelocity_const_y (smoothPositionStage (pixelsToMeters tps ppm))
    (y0 / ppm)
    (by rw [smoothPositionStage_length, pixelsToMeters_length]; omega) hSPD
  have hSVD := smoothVelocityStage_const _ 0 hVD
  have hAD := calculateAcceleration_const_v _ 0
    (by rw [smoothVelocityStage_length, calculateVelocity_length,
      smoothPositionStage_length, pixelsToMeters_length]; omega) hSVD
  have hSAD := smoothAccelerationStage_const _ 0 hAD
  have hFD := calculateForce_const _ mass hSAD
  exact applyForceRollingAverage_const _ (mass * GRAVITY) PEAK_FORCE_WINDOW_MS hFD fr hfr

def exC3 : List TrackingPoint := [⟨4, 7, 0⟩, ⟨4, 7, 1⟩, ⟨4, 7, 2⟩, ⟨4, 7, 3⟩]

/-- Witness for C3 at a concrete constant 4-point trajectory. -/
theorem c3_gravity_only_baseline_witness :
    3 ≤ exC3.length ∧
      List.Pairwise (fun p q => p.time < q.time) exC3 ∧
      ((processTrackingData exC3 2 10).getD 0 default).force = 10 * GRAVITY := by
  refine ⟨by decide, by decide, ?_⟩
  have hmem : (processTrackingData exC3 2 10).getD 0 default ∈ processTrackingData exC3 2 10 := by
    refine getD_mem _ 0 default ?_
    rw [processTrackingData_length]
    decide
  exact (c3_gravity_only_baseline exC3 2 10 4 7 (by decide) (by decide)
    (by decide) _ hmem).1



/-- The branch-selected Δt of `calculateVelocity` at index `i` (forward at the
first sample, backward at the last, central otherwise). -/
def velDt (positions : List TimePos) (i : ℕ) : ℚ :=
  if i = 0 then
    (positions.getD (i + 1) default).time - (positions.getD i default).time
  else if i = positions.length - 1 then
    (positions.getD i default).time - (positions.getD (i - 1) default).time
  else
    (positions.getD (i + 1) default).time - (positions.getD (i - 1) default).time

/-- The branch-selected Δy of `calculateVelocity` at index `i` (reversed
order: earlier minus later). -/
def velDy (positions : List TimePos) (i : ℕ) : ℚ :=
  if i = 0 then
    (positions.getD i default).y - (positions.getD (i + 1) default).y
  else if i = positions.length - 1 then
    (positions.getD (i - 1) default).y - (positions.getD i default).y
  else
    (positions.getD (i - 1) default).y - (positions.getD (i + 1) default).y

/-- The branch-selected Δt of `calculateAcceleration` at index `i`. -/
def accDt (vd : List VelPoint) (i : ℕ) : ℚ :=
  if i = 0 ∧ 1 < vd.length then
    (vd.getD (i + 1) default).time - (vd.getD i default).time
  else if i = vd.length - 1 then
    (vd.getD i default).time - (vd.getD (i - 1) default).time
  else
    (vd.getD (i + 1) default).time - (vd.getD (i - 1) default).time

/-- The branch-selected Δvelocity of `calculateAcceleration` at index `i`. -/
def accDv (vd : List VelPoint) (i : ℕ) : ℚ :=
  if i = 0 ∧ 1 < vd.length then
    (vd.getD (i + 1) default).velocity - (vd.getD i default).velocity
  else if i = vd.length - 1 then
    (vd.getD i default).velocity - (vd.getD (i - 1) default).velocity
  else
    (vd.getD (i + 1) default).velocity - (vd.getD (i - 1) default).velocity

/-- Claim C5 (amended): the difference quotients of `calculateVelocity` and
`calculateAcceleration` divide by the true branch Δt whenever it is positive —
however small — and substitute 0 for the whole quotient when Δt ≤ 0.  There is
no epsilon threshold and no nominal-frame-interval substitution. -/
theorem c5_amended_dt_guard (positions : List TimePos) (vd : List VelPoint) (i : ℕ) :
    (i < positions.length →
      ((calculateVelocity positions).getD i default).velocity =
        if 0 < velDt positions i then velDy positions i / velDt positions i else 0) ∧
    (i < vd.length →
      ((calculateAcceleration vd).getD i default).acceleration =
        if 0 < accDt vd i then accDv vd i / accDt vd i else 0) := by
  constructor
  · intro hi
    simp only [calculateVelocity]
    rw [rangeMap_getD _ _ _ _ hi]
    dsimp only
    by_cases h0 : i = 0
    · simp [velDt, velDy, h0]
    · by_cases hl : i = positions.length - 1
      · subst hl
        simp [velDt, velDy, h0]
      · simp [velDt, velDy, h0, hl]
  · intro hi
    simp only [calculateAcceleration]
    rw [rangeMap_getD _ _ _ _ hi]
    dsimp only
    by_cases h0 : i = 0 ∧ 1 < vd.length
    · simp [accDt, accDv, h0]
    · by_cases hl : i = vd.length - 1
      · subst hl
        simp [accDt, accDv, h0]
      · simp [accDt, accDv, h0, hl]

def exC5 : List TimePos := [⟨0, 0⟩, ⟨1/1000000, 1/100⟩, ⟨2/1000000, 2/100⟩]

section
attribute [local semireducible] Rat.mul Rat.inv Rat.add Rat.sub Rat.ofScientific

/-- Claim C5 counterexample: timestamps 0, 1 µs, 2 µs are near-duplicates (far
below any frame interval), yet the middle velocity is the full blow-up
`(0 - 0.02) / 2e-6 = -10000` m/s — not the value `-0.6` (or `-0.3`) that
substituting the repository's nominal frame interval `1/30` s (or the central
`2/30` s) for the tiny Δt would give. -/
theorem c5_counterexample :
    ((calculateVelocity exC5).getD 1 default).velocity = -10000 ∧
      ((-10000 : ℚ) ≠ (0 - 2/100) / (1/30)) ∧
      ((-10000 : ℚ) ≠ (0 - 2/100) / (2/30)) := by
  refine ⟨by decide, by norm_num, by norm_num⟩

def exC5w : List TimePos := [⟨5, 1⟩, ⟨5, 3⟩]

/-- Witness for the amended C5: with duplicated timestamps (Δt = 0) the
backward difference at the last sample is substituted by 0, and the theorem's
characterization evaluates accordingly. -/
theorem c5_amended_dt_guard_witness :
    (1 < exC5w.length) ∧ ((calculateVelocity exC5w).getD 1 default).velocity = 0 := by
  refine ⟨by decide, ?_⟩
  have h := (c5_amended_dt_guard exC5w [] 1).1 (by decide)
  rw [h]
  decide

end



/-- `{startIndex, endIndex}` intervals produced by `detectRepetitions`. -/
structure Rep where
  startIndex : ℕ
  endIndex : ℕ
  deriving DecidableEq

/-- `minFrames` of `detectRepetitions` (barbell-physics.ts line 385):
`Math.ceil((minRepDurationMs / 1000) * 30)`, approximating 30 fps. -/
def minFramesOf (minRepDurationMs : ℚ) : ℤ := ⌈minRepDurationMs / 1000 * 30⌉

/-- One iteration of the `detectRepetitions` loop (barbell-physics.ts lines
387-404): state is `(reps so far, inRep, startIndex)`. -/
def repStep (processedData : List ProcessedFrame) (velocityThreshold : ℚ)
    (minFrames : ℤ) (acc : List Rep × Bool × ℕ) (i : ℕ) : List Rep × Bool × ℕ :=
  let velocity := (processedData.getD i default).velocity
  if velocityThreshold < velocity ∧ acc.2.1 = false then
    (acc.1, true, i)
  else if velocity ≤ velocityThreshold ∧ acc.2.1 = true then
    (if minFrames ≤ (i : ℤ) - (acc.2.2 : ℤ) then acc.1 ++ [⟨acc.2.2, i - 1⟩] else acc.1,
      false, acc.2.2)
  else acc

/-- `detectRepetitions` (barbell-physics.ts lines 376-415): hysteresis
thresholding on velocity; a rep opens when velocity exceeds the threshold,
closes when it drops to or below it, and is kept only if it spans at least
`minFrames` loop iterations; a rep still open at the end is closed at the last
index under the same minimum-length test. -/
def detectRepetitions (processedData : List ProcessedFrame)
    (velocityThreshold : ℚ) (minRepDurationMs : ℚ) : List Rep :=
  let minFrames := minFramesOf minRepDurationMs
  let final := (List.range processedData.length).foldl
    (repStep processedData velocityThreshold minFrames) ([], false, 0)
  if final.2.1 = true ∧ minFrames ≤ (processedData.length : ℤ) - 1 - (final.2.2 : ℤ) then
    final.1 ++ [⟨final.2.2, processedData.length - 1⟩]
  else final.1

/-- A velocity-only frame builder for concrete segmentation examples. -/
def vframe (t v : ℚ) : ProcessedFrame := ⟨t, 0, v, 0, 0, none⟩

section
attribute [local semireducible] Rat.mul Rat.inv Rat.add Rat.sub Rat.ofScientific

example :
    detectRepetitions
      ((List.range 7).map fun i => vframe i (if i < 6 then 1 else 0)) (3/100) 200 =
      [⟨0, 5⟩] := by decide

example :
    detectRepetitions
      ((List.range 14).map fun i =>
        vframe i (if i < 6 then 1 else if i < 7 then 0 else 1)) (3/100) 200 =
      [⟨0, 5⟩, ⟨7, 13⟩] := by decide

end



/-- Loop invariant of `detectRepetitions` after processing the first `k`
indices: the collected reps are pairwise disjoint in order, well-formed, at
least `minFrames` long (in the loop's `i - startIndex` sense), end before
index `k - 1`, and an open rep started below `k` after every collected rep. -/
def RepInv (minFrames : ℤ) (k : ℕ) (s : List Rep × Bool × ℕ) : Prop :=
  List.Pairwise (fun a b => a.endIndex < b.startIndex) s.1 ∧
  (∀ r ∈ s.1, r.startIndex ≤ r.endIndex ∧ r.endIndex + 1 < k ∧
    (r.startIndex : ℤ) + minFrames ≤ (r.endIndex : ℤ) + 1) ∧
  (s.2.1 = true → s.2.2 < k ∧ ∀ r ∈ s.1, r.endIndex < s.2.2)

lemma repStep_inv (data : List ProcessedFrame) (vthr : ℚ) (mf : ℤ) (k : ℕ)
    (s : List Rep × Bool × ℕ) (h : RepInv mf k s) :
    RepInv mf (k + 1) (repStep data vthr mf s k) := by
  obtain ⟨reps, inR, st⟩ := s
  obtain ⟨hA, hB, hC⟩ := h
  dsimp only at hB hC
  dsimp only [repStep]
  by_cases h1 : vthr < (data.getD k default).velocity ∧ inR = false
  · rw [if_pos h1]
    refine ⟨hA, fun r hr => ?_, fun _ => ⟨by dsimp only; omega, fun r hr => ?_⟩⟩
    · have := hB r hr
      exact ⟨this.1, by omega, this.2.2⟩
    · dsimp only
      have := (hB r hr).2.1
      omega
  · by_cases h2 : (data.getD k default).velocity ≤ vthr ∧ inR = true
    · rw [if_neg h1, if_pos h2]
      obtain ⟨hslt, hrend⟩ := hC h2.2
      by_cases h3 : mf ≤ (k : ℤ) - (st : ℤ)
      · rw [if_pos h3]
        refine ⟨?_, fun r hr => ?_, fun hfalse => by simp at hfalse⟩
        · rw [List.pairwise_append]
          refine ⟨hA, by simp, ?_⟩
          intro a ha b hb
          simp only [List.mem_singleton] at hb
          subst hb
          exact hrend a ha
        · rcases List.mem_append.mp hr with hmem | hmem
          · have := hB r hmem
            exact ⟨this.1, by omega, this.2.2⟩
          · simp only [List.mem_singleton] at hmem
            subst hmem
            refine ⟨by dsimp only; omega, by dsimp only; omega, by dsimp only; omega⟩
      · rw [if_neg h3]
        refine ⟨hA, fun r hr => ?_, fun hfalse => by simp at hfalse⟩
        have := hB r hr
        exact ⟨this.1, by omega, this.2.2⟩
    · rw [if_neg h1, if_neg h2]
      refine ⟨hA, fun r hr => ?_, fun hin => ?_⟩
      · have := hB r hr
        exact ⟨this.1, by omega, this.2.2⟩
      · obtain ⟨hlt, hend⟩ := hC hin
        exact ⟨by dsimp only; omega, hend⟩

lemma detectRepetitions_fold_inv (data : List ProcessedFrame) (vthr : ℚ) (mf : ℤ) :
    ∀ k, RepInv mf k ((List.range k).foldl (repStep data vthr mf) ([], false, 0)) := by
  intro k
  induction k with
  | zero => exact ⟨List.Pairwise.nil, by simp, by simp⟩
  | succ n ih =>
    rw [List.range_succ, List.foldl_append, List.foldl_cons, List.foldl_nil]
    exact repStep_inv data vthr mf n _ ih

/-- Everything `detectRepetitions` guarantees about its output: intervals are
well formed, in bounds, pairwise disjoint in increasing order, and at least
`minFrames` frames long in the loop's duration sense (`endIndex + 1 ≥
startIndex + minFrames`). -/
lemma detectRepetitions_spec (data : List ProcessedFrame) (vthr mdur : ℚ) :
    (∀ r ∈ detectRepetitions data vthr mdur,
      r.startIndex ≤ r.endIndex ∧ r.endIndex < data.length ∧
      (r.startIndex : ℤ) + minFramesOf mdur ≤ (r.endIndex : ℤ) + 1) ∧
    List.Pairwise (fun a b => a.endIndex < b.startIndex)
      (detectRepetitions data vthr mdur) := by
  have hinv := detectRepetitions_fold_inv data vthr (minFramesOf mdur) data.length
  obtain ⟨hA, hB, hC⟩ := hinv
  simp only [detectRepetitions]
  split
  · rename_i hcond
    obtain ⟨hin, hdur⟩ := hcond
    obtain ⟨hslt, hrend⟩ := hC hin
    constructor
    · intro r hr
      rcases List.mem_append.mp hr with hmem | hmem
      · have := hB r hmem
        exact ⟨this.1, by omega, this.2.2⟩
      · simp only [List.mem_singleton] at hmem
        subst hmem
        dsimp only
        refine ⟨by omega, by omega, by omega⟩
    · rw [List.pairwise_append]
      refine ⟨hA, by simp, ?_⟩
      intro a ha b hb
      simp only [List.mem_singleton] at hb
      subst hb
      exact hrend a ha
  · constructor
    · intro r hr
      have := hB r hr
      exact ⟨this.1, by omega, this.2.2⟩
    · exact hA



/-- Claim C7 (amended): every repetition emitted by `detectRepetitions`
satisfies `endIndex + 1 ≥ startIndex + minFrames` (the loop compares the
duration `i - startIndex` against `minFrames` but stores `endIndex = i - 1`,
so mid-sequence reps can have `endIndex - startIndex = minFrames - 1`;
only the tail-closed rep satisfies `endIndex - startIndex ≥ minFrames`). -/
theorem c7_amended_min_length (data : List ProcessedFrame) (vthr mdur : ℚ) (r : Rep)
    (hr : r ∈ detectRepetitions data vthr mdur) :
    (r.startIndex : ℤ) + minFramesOf mdur ≤ (r.endIndex : ℤ) + 1 :=
  ((detectRepetitions_spec data vthr mdur).1 r hr).2.2

/-- Claim C10: every repetition interval emitted by `detectRepetitions` is
well-formed and in bounds (`startIndex ≤ endIndex < length`), and consecutive
emitted repetitions are disjoint in increasing index order (the earlier one's
`endIndex` is strictly below the later one's `startIndex`). -/
theorem c10_intervals_wellformed_disjoint (data : List ProcessedFrame)
    (vthr mdur : ℚ) :
    (∀ r ∈ detectRepetitions data vthr mdur,
      r.startIndex ≤ r.endIndex ∧ r.endIndex < data.length) ∧
    List.Chain' (fun a b => a.endIndex < b.startIndex)
      (detectRepetitions data vthr mdur) :=
  ⟨fun r hr => ⟨((detectRepetitions_spec data vthr mdur).1 r hr).1,
      ((detectRepetitions_spec data vthr mdur).1 r hr).2.1⟩,
    ((detectRepetitions_spec data vthr mdur).2).chain'⟩

def exC7 : List ProcessedFrame := (List.range 7).map fun i => vframe i (if i < 6 then 1 else 0)

def exC10w : List ProcessedFrame :=
  (List.range 14).map fun i => vframe i (if i < 6 then 1 else if i < 7 then 0 else 1)

section
attribute [local semireducible] Rat.mul Rat.inv Rat.add Rat.sub Rat.ofScientific

/-- Claim C7 counterexample: with the default threshold and
`minRepDurationMs = 200` (so `minFrames = 6`), six frames above threshold
followed by one below emit the repetition `⟨0, 5⟩`, whose
`endIndex = 5 < startIndex + minFrames = 6`. -/
theorem c7_counterexample :
    detectRepetitions exC7 (3/100) 200 = [⟨0, 5⟩] ∧
      minFramesOf 200 = 6 ∧ ¬((0 : ℤ) + minFramesOf 200 ≤ (5 : ℤ)) := by
  refine ⟨by decide, by decide, by decide⟩

/-- Witness for the amended C7 at the same concrete run. -/
theorem c7_amended_min_length_witness :
    (⟨0, 5⟩ : Rep) ∈ detectRepetitions exC7 (3/100) 200 ∧
      ((0 : ℤ) + minFramesOf 200 ≤ (5 : ℤ) + 1) :=
  ⟨by decide, c7_amended_min_length exC7 (3/100) 200 ⟨0, 5⟩ (by decide)⟩

/-- Witness for C10 at a concrete run emitting two repetitions. -/
theorem c10_intervals_wellformed_disjoint_witness :
    (⟨7, 13⟩ : Rep) ∈ detectRepetitions exC10w (3/100) 200 ∧
      (7 ≤ 13 ∧ 13 < exC10w.length) ∧
      List.Chain' (fun a b => a.endIndex < b.startIndex)
        (detectRepetitions exC10w (3/100) 200) :=
  ⟨by decide,
    (c10_intervals_wellformed_disjoint exC10w (3/100) 200).1 ⟨7, 13⟩ (by decide),
    (c10_intervals_wellformed_disjoint exC10w (3/100) 200).2⟩

end



/-! ## Visual tracker (TrackingState.tsx, final color-matching variant)

The tracker works on a decoded raster frame (`getImageData`); the embedding
models a frame as its pixel grid.  Canvas reads outside the frame return
transparent black, modelled by `pixelAt`.  The canvas 2D context is assumed
available and in-bounds reads never throw (the `try`/`catch` around the body
only absorbs environment errors). -/

/-- An RGB color sample (averaged reference colors are fractional). -/
structure RGB where
  r : ℚ
  g : ℚ
  b : ℚ
  deriving DecidableEq

/-- A 2D pixel-space point. -/
structure Vec2 where
  x : ℚ
  y : ℚ
  deriving DecidableEq

/-- A decoded raster frame: dimensions plus its pixel grid. -/
structure Frame where
  width : ℕ
  height : ℕ
  pixel : ℕ → ℕ → RGB

/-- The tracker's per-session mutable state (`referenceColorRef`,
`consecutiveLossCountRef`, `velocityRef`, `prevPositionRef` in
TrackingState.tsx lines 349-353), threaded functionally. -/
structure TrackerState where
  refColor : Option RGB
  lossCount : ℕ
  velocity : Vec2
  prevPos : Option Vec2
  deriving DecidableEq

/-- The result of one `trackFrame` step: reported position, confidence, and
the updated state. -/
structure TrackResult where
  pos : Vec2
  confidence : ℚ
  state : TrackerState
  deriving DecidableEq

/-- Accumulator of the weighted-centroid scan (lines 450-451). -/
structure ScanAcc where
  sumX : ℚ
  sumY : ℚ
  totalWeight : ℚ
  best : ℚ
  deriving DecidableEq

/-- Accumulator of the re-acquisition scan's running best (line 568). -/
structure BestAcc where
  w : ℚ
  x : ℚ
  y : ℚ
  deriving DecidableEq

/-- Accumulator for color averaging loops. -/
structure ColorAcc where
  r : ℚ
  g : ℚ
  b : ℚ
  n : ℕ
  deriving DecidableEq

/-- Truncated exponential series (20 terms), the rational stand-in for
`Math.exp` on the nonpositive arguments the tracker uses. -/
def expTaylor (x : ℚ) : ℚ :=
  ∑ i ∈ Finset.range 20, x ^ i / (Nat.factorial i : ℚ)

/-- Rational model of `Math.exp`.  On nonpositive arguments (the only ones the
tracker produces: every argument is `-(distance²)/(2·tolerance²)`) it equals
`1 / expTaylor (-x)`, which like the real exponential maps 0 to 1 and
nonpositive arguments into (0, 1]. -/
def expQ (x : ℚ) : ℚ :=
  if x ≤ 0 then 1 / expTaylor (-x) else expTaylor x

/-- Fuel-bounded Newton iteration for the integer square root (structural
recursion, so that concrete evaluations reduce). -/
def isqrtIter (n : ℕ) : ℕ → ℕ → ℕ
  | 0, x => x
  | fuel + 1, x =>
    let next := (x + n / x) / 2
    if next < x then isqrtIter n fuel next else x

/-- Integer square root via Newton iteration. -/
def isqrt (n : ℕ) : ℕ := if n ≤ 1 then n else isqrtIter n 100 n

/-- Rational model of `Math.sqrt` (fixed-point integer square root):
nonnegative, exact at 0. -/
def ratSqrt (q : ℚ) : ℚ :=
  if q ≤ 0 then 0 else ((isqrt (⌊q * 1000000000000⌋).toNat : ℚ)) / 1000000

/-- Canvas pixel read: in-bounds reads the frame, out-of-bounds reads
transparent black (as `getImageData` returns outside the canvas). -/
def pixelAt (frame : Frame) (x y : ℤ) : RGB :=
  if 0 ≤ x ∧ x < (frame.width : ℤ) ∧ 0 ≤ y ∧ y < (frame.height : ℤ) then
    frame.pixel x.toNat y.toNat
  else ⟨0, 0, 0⟩

/-- Row-major pixel coordinates of a `w × h` rectangle (y outer, x inner),
the iteration order of the nested pixel loops. -/
def pixelIndices (w h : ℕ) : List (ℕ × ℕ) :=
  (List.range h).flatMap fun y => (List.range w).map fun x => (x, y)

/-- `0, step, 2·step, …` below `bound` (the stepped re-acquisition sampling). -/
def stepped (bound step : ℕ) : List ℕ :=
  (List.range ((bound + step - 1) / step)).map (· * step)

/-- Row-major stepped coordinates of the full frame. -/
def steppedIndices (w h step : ℕ) : List (ℕ × ℕ) :=
  (stepped h step).flatMap fun y => (stepped w step).map fun x => (x, y)

/-- `-sr, …, -1, 0, 1, …, sr` (empty when `sr < 0`), the sampling offsets of
the first-frame reference-color capture. -/
def intRangeSym (sr : ℤ) : List ℤ :=
  (List.range (2 * sr + 1).toNat).map fun k => (k : ℤ) - sr

/-- The raw instantaneous velocity computed at the top of `trackFrame`
(lines 370-381): `lastPos - prevPos` when a previous position exists and this
is not the first frame, else the stored velocity. -/
def rawVelOf (st : TrackerState) (lastPos : Vec2) (isFirstFrame : Bool) : Vec2 :=
  match st.prevPos with
  | some pp => if isFirstFrame then st.velocity else ⟨lastPos.x - pp.x, lastPos.y - pp.y⟩
  | none => st.velocity

/-- The exponentially smoothed velocity reference after the top-of-frame
update (70 % new, 30 % old; lines 376-381). -/
def velRefOf (st : TrackerState) (lastPos : Vec2) (isFirstFrame : Bool) : Vec2 :=
  match st.prevPos with
  | some pp =>
    if isFirstFrame then st.velocity
    else ⟨(lastPos.x - pp.x) * 0.7 + st.velocity.x * 0.3,
          (lastPos.y - pp.y) * 0.7 + st.velocity.y * 0.3⟩
  | none => st.velocity

/-- Current speed (line 384): magnitude of the raw instantaneous velocity. -/
def speedOf (st : TrackerState) (lastPos : Vec2) (isFirstFrame : Bool) : ℚ :=
  ratSqrt ((rawVelOf st lastPos isFirstFrame).x ^ 2 + (rawVelOf st lastPos isFirstFrame).y ^ 2)

/-- Prediction lead factor (line 389): larger after recent losses. -/
def leadOf (st : TrackerState) : ℚ :=
  0.8 + min 2 ((st.lossCount : ℚ) * 0.4)

/-- Velocity-extrapolated predicted position (lines 390-393). -/
def predictedOf (st : TrackerState) (lastPos : Vec2) (isFirstFrame : Bool) : Vec2 :=
  ⟨lastPos.x + (velRefOf st lastPos isFirstFrame).x * leadOf st,
   lastPos.y + (velRefOf st lastPos isFirstFrame).y * leadOf st⟩

/-- Clamp a point to the frame rectangle (lines 609-610). -/
def clampToFrame (frame : Frame) (p : Vec2) : Vec2 :=
  ⟨max 0 (min (frame.width : ℚ) p.x), max 0 (min (frame.height : ℚ) p.y)⟩

/-- First-frame reference-color capture (lines 416-444): average the colors in
a square around the window center; keep the old reference if no sample
qualifies. -/
def captureRefColor (frame : Frame) (circleRadius : ℚ)
    (searchX searchY searchW searchH : ℤ) (old : Option RGB) : Option RGB :=
  let centerX : ℤ := searchW / 2
  let centerY : ℤ := searchH / 2
  let sampleRadius : ℤ := ⌊circleRadius * 0.4⌋
  let offs := intRangeSym sampleRadius
  let acc := offs.foldl (fun (a : ColorAcc) dy =>
    offs.foldl (fun (a : ColorAcc) dx =>
      let sx := centerX + dx
      let sy := centerY + dy
      if 0 ≤ sx ∧ sx < searchW ∧ 0 ≤ sy ∧ sy < searchH then
        let px := pixelAt frame (searchX + sx) (searchY + sy)
        ⟨a.r + px.r, a.g + px.g, a.b + px.b, a.n + 1⟩
      else a) a) ⟨0, 0, 0, 0⟩
  if 0 < acc.n then some ⟨acc.r / (acc.n : ℚ), acc.g / (acc.n : ℚ), acc.b / (acc.n : ℚ)⟩
  else old

/-- The color-and-position weighted centroid scan over the search window
(lines 449-499). -/
def localScan (frame : Frame) (rc : RGB) (searchX searchY : ℤ) (predictedPos : Vec2)
    (colorTolerance posRadius colorPriority matchThreshold : ℚ)
    (wpx hpx : ℕ) : ScanAcc :=
  (pixelIndices wpx hpx).foldl (fun a xy =>
    let px := pixelAt frame (searchX + (xy.1 : ℤ)) (searchY + (xy.2 : ℤ))
    let colorDistSq := (px.r - rc.r) ^ 2 + (px.g - rc.g) ^ 2 + (px.b - rc.b) ^ 2
    let colorWeight := expQ (-colorDistSq / (2 * colorTolerance ^ 2))
    let posX := (searchX : ℚ) + (xy.1 : ℚ)
    let posY := (searchY : ℚ) + (xy.2 : ℚ)
    let posDistSq := (posX - predictedPos.x) ^ 2 + (posY - predictedPos.y) ^ 2
    let posWeight := expQ (-posDistSq / (2 * posRadius ^ 2))
    let weight := colorWeight * (colorPriority + (1 - colorPriority) * posWeight)
    if matchThreshold < colorWeight then
      ⟨a.sumX + (xy.1 : ℚ) * weight, a.sumY + (xy.2 : ℚ) * weight,
        a.totalWeight + weight, max a.best colorWeight⟩
    else a) ⟨0, 0, 0, 0⟩

/-- The coarse full-frame re-acquisition scan (lines 563-591): stepped
sampling of the whole frame, weighted toward the predicted position but
allowing global jumps; returns the best candidate (initialized at the last
position with weight 0). -/
def rescanBest (frame : Frame) (rc : RGB) (circleRadius : ℚ)
    (predictedPos lastPos : Vec2) : BestAcc :=
  let step : ℕ := (max 3 ⌊circleRadius * 0.2⌋).toNat
  let refBrightness := (rc.r + rc.g + rc.b) / 3
  let tol := max 70 (refBrightness * 0.7)
  (steppedIndices frame.width frame.height step).foldl (fun best xy =>
    let px := frame.pixel xy.1 xy.2
    let d2 := (px.r - rc.r) ^ 2 + (px.g - rc.g) ^ 2 + (px.b - rc.b) ^ 2
    let cw := expQ (-d2 / (2 * tol ^ 2))
    let pd2 := ((xy.1 : ℚ) - predictedPos.x) ^ 2 + ((xy.2 : ℚ) - predictedPos.y) ^ 2
    let pw := expQ (-pd2 / (2 * (circleRadius * 10) ^ 2))
    let w := cw * (0.75 + 0.25 * pw)
    if best.w < w then ⟨w, (xy.1 : ℚ), (xy.2 : ℚ)⟩ else best)
    ⟨0, lastPos.x, lastPos.y⟩

/-- Slow reference-color adaptation after a high-confidence match
(lines 521-548): 90/10 exponential moving average toward the matched region's
average color. -/
def adaptColor (frame : Frame) (rc : RGB) (circleRadius newX newY : ℚ) : RGB :=
  let sampleRadius : ℤ := max 2 ⌊circleRadius * 0.25⌋
  let sx0 : ℤ := max 0 (⌊newX⌋ - sampleRadius)
  let sy0 : ℤ := max 0 (⌊newY⌋ - sampleRadius)
  let sx1 : ℤ := min ((frame.width : ℤ) - 1) (⌊newX⌋ + sampleRadius)
  let sy1 : ℤ := min ((frame.height : ℤ) - 1) (⌊newY⌋ + sampleRadius)
  let sw : ℤ := max 1 (sx1 - sx0)
  let sh : ℤ := max 1 (sy1 - sy0)
  let acc := (pixelIndices sw.toNat sh.toNat).foldl (fun (a : ColorAcc) xy =>
    let px := pixelAt frame (sx0 + (xy.1 : ℤ)) (sy0 + (xy.2 : ℤ))
    ⟨a.r + px.r, a.g + px.g, a.b + px.b, a.n + 1⟩) ⟨0, 0, 0, 0⟩
  if 0 < acc.n then
    ⟨rc.r * 0.9 + (acc.r / (acc.n : ℚ)) * 0.1,
     rc.g * 0.9 + (acc.g / (acc.n : ℚ)) * 0.1,
     rc.b * 0.9 + (acc.b / (acc.n : ℚ)) * 0.1⟩
  else rc

/-- `trackFrame` (TrackingState.tsx lines 356-614, the final color-matching
variant): one tracking step.  Computes the velocity EMA, predicted position
and adaptive search window; returns the last position with confidence 0 when
the clamped window is empty or no reference color exists; otherwise runs the
weighted-centroid match, accepting it (with per-axis displacement clamped to
`maxMove` relative to the last position and exponentially smoothed), else
increments the loss counter, attempts the coarse re-acquisition scan once the
counter reaches 2 (returning its best candidate unclamped when it clears the
threshold), and otherwise falls back to the predicted position clamped to the
frame, with confidence 0 and slightly decayed velocity. -/
def trackFrame (circleRadius : ℚ) (frame : Frame) (st : TrackerState)
    (lastPos : Vec2) (isFirstFrame : Bool) : TrackResult :=
  let velRef := velRefOf st lastPos isFirstFrame
  let st1 : TrackerState := { st with velocity := velRef }
  let speed := speedOf st lastPos isFirstFrame
  let isMovingFast : Bool := decide (circleRadius * 0.3 < speed)
  let predictedPos := predictedOf st lastPos isFirstFrame
  let baseSearchRadius := circleRadius * 2
  let speedMultiplier := 1 + min 2 (speed / circleRadius)
  let lossMultiplier := min 6 (1 + (st.lossCount : ℚ) * 0.9)
  let searchRadius := baseSearchRadius * max speedMultiplier lossMultiplier
  let searchX : ℤ := max 0 ⌊predictedPos.x - searchRadius⌋
  let searchY : ℤ := max 0 ⌊predictedPos.y - searchRadius⌋
  let searchW : ℤ := min ⌊searchRadius * 2⌋ ((frame.width : ℤ) - searchX)
  let searchH : ℤ := min ⌊searchRadius * 2⌋ ((frame.height : ℤ) - searchY)
  if searchW ≤ 0 ∨ searchH ≤ 0 then ⟨lastPos, 0, st1⟩ else
  let st2 := if isFirstFrame = true ∨ st1.refColor = none then
      { st1 with
        refColor := captureRefColor frame circleRadius searchX searchY searchW searchH
          st1.refColor,
        prevPos := some lastPos }
    else st1
  match st2.refColor with
  | none => ⟨lastPos, 0, st2⟩
  | some rc =>
    let refBrightness := (rc.r + rc.g + rc.b) / 3
    let baseColorTolerance := max 50 (refBrightness * 0.5)
    let colorTolerance := if isMovingFast then baseColorTolerance * 1.5 else baseColorTolerance
    let posRadius := if isMovingFast then searchRadius else baseSearchRadius
    let colorPriority : ℚ := if isMovingFast then 0.85 else 0.7
    let matchThreshold : ℚ := if isMovingFast then 0.2 else 0.3
    let scan := localScan frame rc searchX searchY predictedPos colorTolerance posRadius
      colorPriority matchThreshold searchW.toNat searchH.toNat
    let confidenceThreshold : ℚ := if isMovingFast then 0.25 else 0.4
    if 0 < scan.totalWeight ∧ confidenceThreshold < scan.best then
      let newX := (searchX : ℚ) + scan.sumX / scan.totalWeight
      let newY := (searchY : ℚ) + scan.sumY / scan.totalWeight
      let maxMove := circleRadius * (3 + speed / circleRadius)
      let dx := max (-maxMove) (min maxMove (newX - lastPos.x))
      let dy := max (-maxMove) (min maxMove (newY - lastPos.y))
      let smoothing := if isMovingFast then 0.85 else 0.6 + 0.3 * scan.best
      let rc2 := if 0.55 < scan.best then adaptColor frame rc circleRadius newX newY else rc
      ⟨⟨lastPos.x + dx * smoothing, lastPos.y + dy * smoothing⟩, scan.best,
        { refColor := some rc2, lossCount := 0, velocity := velRef, prevPos := some lastPos }⟩
    else
      let lossCount2 := min 5 (st.lossCount + 1)
      let reacquireThreshold : ℚ := if isMovingFast then 0.25 else 0.35
      let best := rescanBest frame rc circleRadius predictedPos lastPos
      if 2 ≤ lossCount2 ∧ reacquireThreshold < best.w then
        ⟨⟨best.x, best.y⟩, best.w,
          { refColor := st2.refColor, lossCount := 0, velocity := velRef,
            prevPos := some lastPos }⟩
      else
        ⟨clampToFrame frame predictedPos, 0,
          { refColor := st2.refColor, lossCount := lossCount2,
            velocity := ⟨velRef.x * 0.9, velRef.y * 0.9⟩, prevPos := some lastPos }⟩



lemma expTaylor_one_le (y : ℚ) (hy : 0 ≤ y) : 1 ≤ expTaylor y := by
  unfold expTaylor
  have hs := Finset.single_le_sum (f := fun i => y ^ i / (Nat.factorial i : ℚ))
    (fun i _ => by positivity) (Finset.mem_range.mpr (by norm_num : (0 : ℕ) < 20))
  simpa using hs

lemma expQ_pos (x : ℚ) : 0 < expQ x := by
  unfold expQ
  split
  · rename_i hx
    have h1 : (1 : ℚ) ≤ expTaylor (-x) := expTaylor_one_le _ (by linarith)
    positivity
  · rename_i hx
    have h1 : (1 : ℚ) ≤ expTaylor x := expTaylor_one_le _ (by linarith)
    linarith

lemma expQ_le_one (x : ℚ) (hx : x ≤ 0) : expQ x ≤ 1 := by
  unfold expQ
  rw [if_pos hx]
  have h1 : (1 : ℚ) ≤ expTaylor (-x) := expTaylor_one_le _ (by linarith)
  rw [div_le_one (by linarith)]
  exact h1

lemma ratSqrt_nonneg (q : ℚ) : 0 ≤ ratSqrt q := by
  unfold ratSqrt
  split
  · exact le_refl 0
  · have h1 : (0 : ℚ) ≤ ((isqrt (⌊q * 1000000000000⌋).toNat : ℕ) : ℚ) := Nat.cast_nonneg _
    exact div_nonneg h1 (by norm_num)

lemma foldl_inv {α β : Type} (P : β → Prop) (f : β → α → β) (l : List α) (b : β)
    (hb : P b) (hf : ∀ acc a, P acc → P (f acc a)) : P (l.foldl f b) := by
  induction l generalizing b with
  | nil => exact hb
  | cons a t ih => exact ih (f b a) (hf b a hb)

lemma localScan_best_bounds (frame : Frame) (rc : RGB) (searchX searchY : ℤ)
    (predictedPos : Vec2) (colorTolerance posRadius colorPriority matchThreshold : ℚ)
    (wpx hpx : ℕ) (htol : colorTolerance ≠ 0) :
    0 ≤ (localScan frame rc searchX searchY predictedPos colorTolerance posRadius
      colorPriority matchThreshold wpx hpx).best ∧
    (localScan frame rc searchX searchY predictedPos colorTolerance posRadius
      colorPriority matchThreshold wpx hpx).best ≤ 1 := by
  unfold localScan
  refine foldl_inv (fun acc : ScanAcc => 0 ≤ acc.best ∧ acc.best ≤ 1) _ _ _
    ⟨le_refl 0, by norm_num⟩ ?_
  intro acc xy h01
  obtain ⟨h0, h1⟩ := h01
  dsimp only
  split
  · constructor
    · exact le_trans h0 (le_max_left _ _)
    · refine max_le h1 ?_
      refine expQ_le_one _ ?_
      have hd2 : 0 ≤ ((pixelAt frame (searchX + (xy.1 : ℤ)) (searchY + (xy.2 : ℤ))).r - rc.r) ^ 2 +
          ((pixelAt frame (searchX + (xy.1 : ℤ)) (searchY + (xy.2 : ℤ))).g - rc.g) ^ 2 +
          ((pixelAt frame (searchX + (xy.1 : ℤ)) (searchY + (xy.2 : ℤ))).b - rc.b) ^ 2 := by
        positivity
      have htol2 : 0 < 2 * colorTolerance ^ 2 := by positivity
      exact div_nonpos_of_nonpos_of_nonneg (by linarith) (by linarith)
  · exact ⟨h0, h1⟩

lemma abs_clamp_le (m v : ℚ) (hm : 0 ≤ m) : |max (-m) (min m v)| ≤ m := by
  rw [abs_le]
  constructor
  · exact le_max_left _ _
  · exact max_le (by linarith) (min_le_left _ _)



/-- Case analysis on one `trackFrame` step: either the match (local or
re-acquisition) was accepted with positive confidence, or the step reports the
unchanged last position, or it reports the clamped velocity prediction. -/
lemma trackFrame_cases (circleRadius : ℚ) (frame : Frame) (st : TrackerState)
    (lastPos : Vec2) (isFirstFrame : Bool) :
    0 < (trackFrame circleRadius frame st lastPos isFirstFrame).confidence ∨
      (trackFrame circleRadius frame st lastPos isFirstFrame).pos = lastPos ∨
      (trackFrame circleRadius frame st lastPos isFirstFrame).pos =
        clampToFrame frame (predictedOf st lastPos isFirstFrame) := by
  simp only [trackFrame]
  repeat' split
  all_goals first
    | exact Or.inr (Or.inl rfl)
    | exact Or.inr (Or.inr rfl)
    | (rename_i hc; exact Or.inl (lt_of_le_of_lt (by norm_num) hc.2))
    | (rename_i hc hjunk; exact Or.inl (lt_of_le_of_lt (by norm_num) hc.2))



lemma clamp_step_abs (p m v s : ℚ) (hm : 0 ≤ m) (hs0 : 0 ≤ s) (hs1 : s ≤ 1) :
    |p + max (-m) (min m v) * s - p| ≤ m := by
  have h1 : |max (-m) (min m v)| ≤ m := abs_clamp_le m v hm
  have h2 : p + max (-m) (min m v) * s - p = max (-m) (min m v) * s := by ring
  rw [h2, abs_mul, abs_of_nonneg hs0]
  calc |max (-m) (min m v)| * s ≤ m * s :=
        mul_le_mul_of_nonneg_right h1 hs0
    _ ≤ m * 1 := mul_le_mul_of_nonneg_left hs1 hm
    _ = m := mul_one m

lemma maxMove_nonneg (circleRadius : ℚ) (st : TrackerState) (lastPos : Vec2)
    (isFirstFrame : Bool) (hr : 0 < circleRadius) :
    0 ≤ circleRadius * (3 + speedOf st lastPos isFirstFrame / circleRadius) := by
  have hsp : 0 ≤ speedOf st lastPos isFirstFrame := by
    unfold speedOf; exact ratSqrt_nonneg _
  have hd : 0 ≤ speedOf st lastPos isFirstFrame / circleRadius :=
    div_nonneg hsp (le_of_lt hr)
  nlinarith

lemma smoothing_nonneg (frame : Frame) (rc : RGB) (searchX searchY : ℤ)
    (predictedPos : Vec2) (tol posR prio thr : ℚ) (w h : ℕ) (htol : tol ≠ 0) :
    (0 : ℚ) ≤ 0.6 + 0.3 *
      (localScan frame rc searchX searchY predictedPos tol posR prio thr w h).best := by
  have hb := (localScan_best_bounds frame rc searchX searchY predictedPos tol posR
    prio thr w h htol).1
  linarith

lemma smoothing_le_one (frame : Frame) (rc : RGB) (searchX searchY : ℤ)
    (predictedPos : Vec2) (tol posR prio thr : ℚ) (w h : ℕ) (htol : tol ≠ 0) :
    (0.6 : ℚ) + 0.3 *
      (localScan frame rc searchX searchY predictedPos tol posR prio thr w h).best ≤ 1 := by
  have hb := (localScan_best_bounds frame rc searchX searchY predictedPos tol posR
    prio thr w h htol).2
  linarith

set_option maxHeartbeats 2000000 in
/-- Claim C8 (amended): a match accepted with no pending loss (so through the
local weighted-centroid path — the re-acquisition scan cannot run when the
loss counter is 0) moves the reported position, per axis, by at most
`maxMove = circleRadius * (3 + speed / circleRadius)` RELATIVE TO THE LAST
position (not the predicted one): the clamp `dx = clamp(newX - lastPos.x)` is
applied before exponential smoothing with a factor in [0, 1].  Re-acquisition
matches (possible only after at least one lost frame) are returned unclamped,
as the counterexample shows. -/
theorem c8_local_accept_clamped (circleRadius : ℚ) (frame : Frame)
    (st : TrackerState) (lastPos : Vec2) (isFirstFrame : Bool)
    (hr : 0 < circleRadius) (hl : st.lossCount = 0) :
    0 < (trackFrame circleRadius frame st lastPos isFirstFrame).confidence →
    |(trackFrame circleRadius frame st lastPos isFirstFrame).pos.x - lastPos.x| ≤
        circleRadius * (3 + speedOf st lastPos isFirstFrame / circleRadius) ∧
      |(trackFrame circleRadius frame st lastPos isFirstFrame).pos.y - lastPos.y| ≤
        circleRadius * (3 + speedOf st lastPos isFirstFrame / circleRadius) := by
  simp only [trackFrame]
  repeat' split
  all_goals intro hc
  all_goals first
    | exact absurd hc (lt_irrefl 0)
    | (rename_i hcond; exact absurd hcond.1 (by omega))
    | (rename_i hcond h1; exact absurd hcond.1 (by omega))
    | (rename_i hcond h1 h2; exact absurd hcond.1 (by omega))
    | (dsimp only
       constructor <;>
         (refine clamp_step_abs _ _ _ _ ?_ ?_ ?_ <;>
          first
            | exact maxMove_nonneg circleRadius st lastPos isFirstFrame hr
            | (apply smoothing_nonneg
               exact ne_of_gt (lt_of_lt_of_le (by norm_num) (le_max_left _ _)))
            | (apply smoothing_le_one
               exact ne_of_gt (lt_of_lt_of_le (by norm_num) (le_max_left _ _)))
            | exact (by norm_num)))




/-- Claim C9 (amended): every `trackFrame` step that reports confidence 0
returns either the unchanged last position (degenerate search window, or no
reference color yet) or the velocity-extrapolated predicted position clamped
to the frame.  The reported position therefore differs frame-to-frame only
when the prediction moves it: with zero velocity (or a clamp saturated at the
frame edge) the tracker returns exactly the same coordinate on consecutive
lost frames, as the counterexample shows. -/
theorem c9_lost_position_characterization (circleRadius : ℚ) (frame : Frame)
    (st : TrackerState) (lastPos : Vec2) (isFirstFrame : Bool)
    (h : (trackFrame circleRadius frame st lastPos isFirstFrame).confidence = 0) :
    (trackFrame circleRadius frame st lastPos isFirstFrame).pos = lastPos ∨
      (trackFrame circleRadius frame st lastPos isFirstFrame).pos =
        clampToFrame frame (predictedOf st lastPos isFirstFrame) := by
  rcases trackFrame_cases circleRadius frame st lastPos isFirstFrame with hpos | hl | hr
  · rw [h] at hpos
    exact absurd hpos (lt_irrefl 0)
  · exact Or.inl hl
  · exact Or.inr hr

/-- A 10×10 all-white frame. -/
def whiteFrame10 : Frame := ⟨10, 10, fun _ _ => ⟨255, 255, 255⟩⟩

/-- Tracker state at rest (zero velocity, no pending loss) with a black
reference color — reachable right after the target vanishes while standing
still. -/
def stC9 : TrackerState := ⟨some ⟨0, 0, 0⟩, 0, ⟨0, 0⟩, some ⟨3, 3⟩⟩

/-- Same situation but while moving right at 1 px/frame. -/
def stC9w : TrackerState := ⟨some ⟨0, 0, 0⟩, 0, ⟨1, 0⟩, some ⟨3, 3⟩⟩

/-- A 15×30 white frame with a single black pixel at (3, 24). -/
def frameC8 : Frame :=
  ⟨15, 30, fun x y => if x = 3 ∧ y = 24 then ⟨0, 0, 0⟩ else ⟨255, 255, 255⟩⟩

/-- Black reference, one pending lost frame, zero velocity. -/
def stC8 : TrackerState := ⟨some ⟨0, 0, 0⟩, 1, ⟨0, 0⟩, some ⟨3, 3⟩⟩

/-- An 8×8 all-black frame. -/
def frameB8 : Frame := ⟨8, 8, fun _ _ => ⟨0, 0, 0⟩⟩

/-- Black reference, no pending loss, zero velocity. -/
def stW8 : TrackerState := ⟨some ⟨0, 0, 0⟩, 0, ⟨0, 0⟩, some ⟨3, 3⟩⟩

section
attribute [local semireducible] Rat.mul Rat.inv Rat.add Rat.sub Rat.ofScientific

set_option maxRecDepth 400000 in
/-- Claim C9 counterexample: a lost step (confidence 0) with zero velocity
reports exactly the previous reported position (3, 3) again — the prediction
`lastPos + velocity · lead` does not move, so even a 1-frame run of
confidence-0 steps repeats the same coordinate, contradicting "the reported
position differs frame-to-frame on every lost step". -/
theorem c9_counterexample :
    (trackFrame 2 whiteFrame10 stC9 ⟨3, 3⟩ false).confidence = 0 ∧
      (trackFrame 2 whiteFrame10 stC9 ⟨3, 3⟩ false).pos = ⟨3, 3⟩ := by
  exact ⟨by decide, by decide⟩

set_option maxRecDepth 400000 in
/-- Witness for the amended C9: a lost step with velocity (1, 0) reports the
clamped prediction, which here differs from the last position. -/
theorem c9_lost_position_characterization_witness :
    (trackFrame 2 whiteFrame10 stC9w ⟨4, 3⟩ false).confidence = 0 ∧
      ((trackFrame 2 whiteFrame10 stC9w ⟨4, 3⟩ false).pos = ⟨4, 3⟩ ∨
        (trackFrame 2 whiteFrame10 stC9w ⟨4, 3⟩ false).pos =
          clampToFrame whiteFrame10 (predictedOf stC9w ⟨4, 3⟩ false)) :=
  ⟨by decide,
    c9_lost_position_characterization 2 whiteFrame10 stC9w ⟨4, 3⟩ false (by decide)⟩

set_option maxRecDepth 400000 in
/-- Claim C8 counterexample: with one pending lost frame the second miss
triggers the coarse re-acquisition scan, which returns the best color match
at (3, 24) UNCLAMPED: the accepted match lies 21 px from the predicted
position (3, 3), far beyond the claimed clamp bound
`maxStep = circleRadius * (3 + speed / circleRadius) = 6`. -/
theorem c8_counterexample :
    0 < (trackFrame 2 frameC8 stC8 ⟨3, 3⟩ false).confidence ∧
      (trackFrame 2 frameC8 stC8 ⟨3, 3⟩ false).pos = ⟨3, 24⟩ ∧
      predictedOf stC8 ⟨3, 3⟩ false = ⟨3, 3⟩ ∧
      ¬(|(trackFrame 2 frameC8 stC8 ⟨3, 3⟩ false).pos.y -
            (predictedOf stC8 ⟨3, 3⟩ false).y| ≤
          2 * (3 + speedOf stC8 ⟨3, 3⟩ false / 2)) := by
  exact ⟨by decide, by decide, by decide, by decide⟩

set_option maxRecDepth 400000 in
/-- Witness for the amended C8: a clean local accept (loss counter 0,
confidence 1) stays within `maxMove` of the last position on both axes. -/
theorem c8_local_accept_clamped_witness :
    (0 : ℚ) < 2 ∧ stW8.lossCount = 0 ∧
      0 < (trackFrame 2 frameB8 stW8 ⟨3, 3⟩ false).confidence ∧
      (|(trackFrame 2 frameB8 stW8 ⟨3, 3⟩ false).pos.x - (Vec2.mk 3 3).x| ≤
          2 * (3 + speedOf stW8 ⟨3, 3⟩ false / 2) ∧
        |(trackFrame 2 frameB8 stW8 ⟨3, 3⟩ false).pos.y - (Vec2.mk 3 3).y| ≤
          2 * (3 + speedOf stW8 ⟨3, 3⟩ false / 2)) :=
  ⟨by norm_num, rfl, by decide,
    c8_local_accept_clamped 2 frameB8 stW8 ⟨3, 3⟩ false (by norm_num) rfl (by decide)⟩

end

end Barbell
